import Mathlib

/-!
Shallow embedding of the bookmark-enrichment core of the `bookmarks`
repository (Next.js + Drizzle + Gemini), together with proofs of the
behavioural properties stated in its design specification.

The embedding follows the TypeScript source:
  * `lib/bookmark-utils.ts`  — `normalizeUrl`, `ensureTags`,
    `updateBookmarkTags`, `updateSearchVector`, `truncateContent`;
  * `lib/content-extractor.ts` — `fetchPageHtml`, `extractReadableContent`;
  * `lib/llm-client.ts` — `LLMResultSchema` validation and the
    `summarizeAndTag` retry loop;
  * `app/api/bookmarks/route.ts` — the bookmark-creation `POST` handler;
  * `app/api/bookmarks/[id]/route.ts` — the `PATCH` hand-edit handler.

Database tables are modelled as lists of rows; the JavaScript `Set`
used for tag merging is modelled by first-occurrence deduplication;
JavaScript strings are modelled by `List Char` or `String` as
convenient.  Machine floats only occur in the comparison
`lastSpace > maxChars * 0.8`, which is exact for every realistic
`maxChars` and is therefore modelled by the rational comparison
`5 * lastSpace > 4 * maxChars`.
-/

namespace Bookmarks

/-! ## Tag merging (`updateBookmarkTags`, lib/bookmark-utils.ts) -/

/-- JavaScript `[...new Set(l)]`: keep the first occurrence of each
element, preserving order. -/
def jsSetDedup (l : List String) : List String :=
  l.foldl (fun acc x => if x ∈ acc then acc else acc ++ [x]) []

/-- A row of the `bookmark_tags` table: `(bookmarkId, tagId)`. -/
structure BookmarkTagRow where
  bookmarkId : String
  tagId : String
deriving DecidableEq, Repr

/-- Source `updateBookmarkTags(db, bookmarkId, tagIds)`: read the existing tag
associations of the bookmark, merge them with the incoming `tagIds`
removing duplicates (`[...new Set([...existingTagIds, ...tagIds])]`),
delete every association of the bookmark and insert the merged set. -/
def updateBookmarkTags (table : List BookmarkTagRow) (bookmarkId : String)
    (tagIds : List String) : List BookmarkTagRow :=
  let existingTagIds :=
    (table.filter (fun r => r.bookmarkId = bookmarkId)).map (fun r => r.tagId)
  let allTagIds := jsSetDedup (existingTagIds ++ tagIds)
  let afterDelete := table.filter (fun r => ¬ r.bookmarkId = bookmarkId)
  afterDelete ++ allTagIds.map (fun t => ⟨bookmarkId, t⟩)

/-- The tag ids associated to a bookmark in a `bookmark_tags` table. -/
def tagsOf (table : List BookmarkTagRow) (bookmarkId : String) : List String :=
  (table.filter (fun r => r.bookmarkId = bookmarkId)).map (fun r => r.tagId)

/-! ## Content truncation (`truncateContent`, lib/bookmark-utils.ts) -/

/-- JavaScript `String.prototype.lastIndexOf(" ")`: the index of the last
space, `-1` when there is none. -/
def lastIndexOfSpace : List Char → Int
  | [] => -1
  | c :: rest =>
    let r := lastIndexOfSpace rest
    if r ≥ 0 then r + 1 else if c = ' ' then 0 else -1

/-- Source `truncateContent(content, maxChars)`: return the content unchanged when
it fits; otherwise cut to `maxChars` characters, and if the last space of
the cut part lies strictly past 80 % of the budget
(`lastSpace > maxChars * 0.8`), cut again at that space; append `"..."`. -/
def truncateContent (content : List Char) (maxChars : Nat) : List Char :=
  if content.length ≤ maxChars then content
  else
    let truncated := content.take maxChars
    let lastSpace := lastIndexOfSpace truncated
    if 5 * lastSpace > 4 * (maxChars : Int) then
      truncated.take lastSpace.toNat ++ "...".data
    else
      truncated ++ "...".data

/-! ## String helpers shared by several components -/

/-- Does the list start with the given prefix of characters? -/
def startsWithList : List Char → List Char → Bool
  | _, [] => true
  | [], _ :: _ => false
  | c :: s, d :: sub => c == d && startsWithList s sub

/-- Does `sub` occur as a contiguous run inside `s`? -/
def hasInfixList (sub : List Char) : List Char → Bool
  | [] => startsWithList [] sub
  | c :: rest => startsWithList (c :: rest) sub || hasInfixList sub rest

/-- JavaScript `s.includes(sub)`. -/
def strContains (s sub : String) : Bool :=
  hasInfixList sub.data s.data

/-- Character-by-character lowercasing (`s.toLowerCase()`; the URLs and
tags involved are ASCII, where this agrees with JavaScript). -/
def toLowerStr (s : String) : String :=
  String.mk (s.data.map Char.toLower)

/-- JavaScript `s.startsWith(pre)`. -/
def strStartsWith (s pre : String) : Bool :=
  startsWithList s.data pre.data

/-- JavaScript `s.endsWith(suffix)`. -/
def strEndsWith (s sfx : String) : Bool :=
  startsWithList s.data.reverse sfx.data.reverse

/-- JavaScript `s.substring(n)`: drop the first `n` characters. -/
def strDrop (s : String) (n : Nat) : String :=
  String.mk (s.data.drop n)

/-- JavaScript `s.slice(0, -n)`: drop the last `n` characters. -/
def strDropRight (s : String) (n : Nat) : String :=
  String.mk (s.data.take (s.data.length - n))

/-- The whitespace characters relevant to `trim` here. -/
def isWhitespaceChar (c : Char) : Bool :=
  c == ' ' || c == '\t' || c == '\n' || c == '\r'

/-- JavaScript `s.trim()`: strip leading and trailing whitespace. -/
def strTrim (s : String) : String :=
  String.mk
    (((s.data.dropWhile isWhitespaceChar).reverse.dropWhile
        isWhitespaceChar).reverse)

/-- Join strings with a separator. -/
def joinSep (sep : String) : List String → String
  | [] => ""
  | [s] => s
  | s :: rest => s ++ sep ++ joinSep sep rest

/-- Split a list of characters into maximal space-free words. -/
def wordsAux : List Char → List Char → List String
  | [], acc => if acc.isEmpty then [] else [String.mk acc.reverse]
  | c :: rest, acc =>
    if c = ' ' then
      if acc.isEmpty then wordsAux rest []
      else String.mk acc.reverse :: wordsAux rest []
    else wordsAux rest (c :: acc)

/-! ## Search vector (`updateSearchVector`, lib/bookmark-utils.ts) -/

/-- Model of Postgres `to_tsvector('simple', s)`: the lowercased words of
`s` (the `simple` configuration lowercases each token and applies no stop
words; we model tokenisation as splitting at spaces). -/
def toTsvectorSimple (s : String) : List String :=
  (wordsAux s.data []).map toLowerStr

/-- Postgres `setweight(v, w)`: attach the weight label to every lexeme. -/
def setweightAll (v : List String) (w : Char) : List (String × Char) :=
  v.map (fun x => (x, w))

/-- The SQL executed by `updateSearchVector`:
`setweight(to_tsvector('simple', coalesce(b.title, '')), 'A') ||
 setweight(to_tsvector('simple', coalesce(b.description, '')), 'B') ||
 setweight(to_tsvector('simple', coalesce(bc.summary_short, '')), 'B') ||
 setweight(to_tsvector('simple', coalesce(bc.summary_long, '')), 'C')`. -/
def buildSearchVector (title description summaryShort summaryLong : Option String) :
    List (String × Char) :=
  setweightAll (toTsvectorSimple (title.getD "")) 'A' ++
  setweightAll (toTsvectorSimple (description.getD "")) 'B' ++
  setweightAll (toTsvectorSimple (summaryShort.getD "")) 'B' ++
  setweightAll (toTsvectorSimple (summaryLong.getD "")) 'C'

/-! ## The `PATCH /api/bookmarks/[id]` hand-edit handler
(app/api/bookmarks/[id]/route.ts) -/

/-- The fields of a `bookmarks` row touched by the PATCH handler. -/
structure PatchBookmarkRow where
  title : Option String
  description : Option String
deriving DecidableEq, Repr

/-- The fields of a `bookmark_contents` row relevant to editing, together
with the persisted `search_vector` column. -/
structure ContentRow where
  summaryShort : Option String
  summaryLong : Option String
  searchVector : List (String × Char)
deriving DecidableEq, Repr

/-- The request body of the PATCH handler.  An outer `none` means the field
was absent from the JSON body (`undefined` in JavaScript); for
`description` the inner option allows an explicit `null`. -/
structure PatchBody where
  description : Option (Option String)
  summaryShort : Option String
  summaryLong : Option String
deriving DecidableEq, Repr

/-- The PATCH handler after authentication and the ownership check: update
`description` on the bookmark row when provided, update the provided
summary fields on the `bookmark_contents` row when either is provided.
No other column is written. -/
def patchBookmark (bm : PatchBookmarkRow) (ct : ContentRow) (body : PatchBody) :
    PatchBookmarkRow × ContentRow :=
  let bm1 :=
    match body.description with
    | some d => { bm with description := d }
    | none => bm
  let ct1 :=
    if body.summaryShort.isSome || body.summaryLong.isSome then
      { ct with
        summaryShort :=
          match body.summaryShort with
          | some s => some s
          | none => ct.summaryShort
        summaryLong :=
          match body.summaryLong with
          | some s => some s
          | none => ct.summaryLong }
    else ct
  (bm1, ct1)

/-! ## Page fetching (`fetchPageHtml`, lib/content-extractor.ts) -/

/-- The observable part of an HTTP response, as consumed by
`fetchPageHtml`.  `contentLength` is the parsed `content-length` header
when the header is present and numeric; `body` is the downloaded text. -/
structure HttpResponse where
  ok : Bool
  status : Nat
  statusText : String
  contentType : Option String
  contentLength : Option Nat
  body : List Char
deriving DecidableEq, Repr

/-- Outcome of one `fetchPageHtml` call: the returned HTML or the message
of the thrown error. -/
inductive FetchResult where
  | success (html : List Char)
  | failure (message : String)
deriving DecidableEq, Repr

/-- Source `fetchPageHtml` after the network read, on a response that arrived in
time: reject non-2xx statuses, reject a missing or non-`text/html`
content type, reject when the advertised `content-length` exceeds
`maxSizeBytes`, and otherwise return the body, truncated with
`html.substring(0, maxSizeBytes)` when the downloaded text itself exceeds
`maxSizeBytes`. -/
def fetchPageHtml (resp : HttpResponse) (maxSizeBytes : Nat) : FetchResult :=
  if ¬ resp.ok then
    .failure ("HTTP " ++ toString resp.status ++ ": " ++ resp.statusText)
  else
    match resp.contentType with
    | none => .failure "Invalid content type: null"
    | some ct =>
      if ¬ strContains ct "text/html" then
        .failure ("Invalid content type: " ++ ct)
      else
        let headerTooLarge : Bool :=
          match resp.contentLength with
          | some n => decide (maxSizeBytes < n)
          | none => false
        if headerTooLarge then
          .failure ("Content too large: " ++
            toString (resp.contentLength.getD 0) ++ " bytes")
        else if maxSizeBytes < resp.body.length then
          .success (resp.body.take maxSizeBytes)
        else
          .success resp.body

/-! ## LLM response validation (`LLMResultSchema`, lib/llm-client.ts) -/

/-- A JSON value, as produced by `JSON.parse`. -/
inductive Json where
  | null
  | bool (b : Bool)
  | num (n : Int)
  | str (s : String)
  | arr (elems : List Json)
  | obj (fields : List (String × Json))

/-- Look a key up in a JSON object; `none` when the value is not an object
or the key is absent. -/
def jsonLookup : Json → String → Option Json
  | .obj fields, key => lookupField fields key
  | _, _ => none
where
  lookupField : List (String × Json) → String → Option Json
    | [], _ => none
    | (k, v) :: rest, key => if k = key then some v else lookupField rest key

/-- Zod `z.string()` applied to a JSON value. -/
def asString : Json → Option String
  | .str s => some s
  | _ => none

/-- Validate every element of an array as a string, failing when any
element is not a string. -/
def allStrings : List Json → Option (List String)
  | [] => some []
  | x :: rest =>
    match asString x, allStrings rest with
    | some s, some ss => some (s :: ss)
    | _, _ => none

/-- Zod `z.array(z.string())` applied to a JSON value. -/
def asStringArray : Json → Option (List String)
  | .arr xs => allStrings xs
  | _ => none

/-- Zod `z.string().optional()` applied to an object field: an absent field
parses to `none`; a present field must be a string. -/
def optionalStringField (j : Json) (key : String) : Option (Option String) :=
  match jsonLookup j key with
  | none => some none
  | some v => (asString v).map some

/-- The validated result type of the summarization client
(`LLMResult = z.infer<typeof LLMResultSchema>`). -/
structure LLMResult where
  title : String
  summaryShort : Option String
  summaryLong : Option String
  language : String
  tags : List String
  category : Option String
deriving DecidableEq, Repr

/-- Source `LLMResultSchema.parse`: `title` and `language` are required strings,
`tags` a required array of strings, `summary_short`, `summary_long` and
`category` optional strings.  `none` models a thrown `ZodError`. -/
def LLMResultSchemaParse (j : Json) : Option LLMResult := do
  let title ← (jsonLookup j "title").bind asString
  let summaryShort ← optionalStringField j "summary_short"
  let summaryLong ← optionalStringField j "summary_long"
  let language ← (jsonLookup j "language").bind asString
  let tags ← (jsonLookup j "tags").bind asStringArray
  let category ← optionalStringField j "category"
  pure ⟨title, summaryShort, summaryLong, language, tags, category⟩

/-! ## The retry loop of `summarizeAndTag` (lib/llm-client.ts) -/

/-- The error message thrown once every attempt has failed. -/
def llmFailureMessage (totalAttempts : Nat) (lastError : String) : String :=
  "Failed to get LLM response after " ++ toString totalAttempts ++
    " attempts: " ++ lastError

deriving instance DecidableEq for Except

/-- One observed run of `summarizeAndTag`: the returned value or thrown
message, how many model calls were made, and the backoff delays (in
milliseconds) slept between consecutive attempts, in order. -/
structure SummarizeTrace where
  result : Except String LLMResult
  attemptsMade : Nat
  waitsMs : List Nat
deriving DecidableEq, Repr

/-- The body of the `for (let attempt = 0; attempt <= maxRetries; attempt++)`
loop.  `attempts i` is the outcome of the `i`-th model call including JSON
parsing and schema validation (`.error` models any thrown error, carrying
its message).  The invariant `attempt + remaining = maxRetries` links the
two counters; on the last attempt the loop breaks and the final error is
thrown, otherwise the loop sleeps `2 ^ attempt * 1000` milliseconds and
retries. -/
def summarizeFrom (attempts : Nat → Except String LLMResult) :
    Nat → Nat → List Nat → SummarizeTrace
  | attempt, remaining, waits =>
    match attempts attempt, remaining with
    | .ok r, _ => ⟨.ok r, attempt + 1, waits⟩
    | .error e, 0 => ⟨.error (llmFailureMessage (attempt + 1) e), attempt + 1, waits⟩
    | .error _, remaining + 1 =>
      summarizeFrom attempts (attempt + 1) remaining (waits ++ [2 ^ attempt * 1000])

/-- Source `summarizeAndTag(input, model, maxRetries)`, abstracted over the
outcome of each underlying model call. -/
def summarizeAndTag (attempts : Nat → Except String LLMResult)
    (maxRetries : Nat) : SummarizeTrace :=
  summarizeFrom attempts 0 maxRetries []

/-! ## URL normalization (`normalizeUrl`, lib/bookmark-utils.ts) -/

/-- Split a character list at the first character satisfying `p`; the
second component starts with that character (or is empty). -/
def splitAtFirst (p : Char → Bool) : List Char → List Char × List Char
  | [] => ([], [])
  | c :: rest =>
    if p c then ([], c :: rest)
    else
      let (a, b) := splitAtFirst p rest
      (c :: a, b)

/-- Split a character list at the first occurrence of `"://"`, returning
the scheme and the remainder. -/
def splitScheme : List Char → Option (List Char × List Char)
  | ':' :: '/' :: '/' :: rest => some ([], rest)
  | c :: rest => (splitScheme rest).map (fun pr => (c :: pr.1, pr.2))
  | [] => none

/-- Parsed form of a WHATWG `URL`, restricted to the
`scheme://host[/path][?query][#fragment]` shape the bookmark URLs take. -/
structure URLParts where
  protocol : String
  hostname : String
  pathname : String
  searchParams : List (String × String)
  hash : String
deriving DecidableEq, Repr

/-- One `key=value` piece of a query string, split at the first `=`
(`value` is empty when the `=` is absent), as `URLSearchParams` does. -/
def parseQueryParam (s : List Char) : String × String :=
  let (k, v) := splitAtFirst (fun c => c = '=') s
  (String.mk k, String.mk (v.drop 1))

/-- The parameter list of a `?`-prefixed query string. -/
def parseQuery (q : List Char) : List (String × String) :=
  if q.isEmpty then []
  else (splitPieces (q.drop 1)).map parseQueryParam
where
  splitPieces (s : List Char) : List (List Char) :=
    (pieces s).filter (fun piece => ¬ piece.isEmpty)
  pieces : List Char → List (List Char)
    | [] => [[]]
    | c :: rest =>
      if c = '&' then [] :: pieces rest
      else
        match pieces rest with
        | [] => [[c]]
        | piece :: more => (c :: piece) :: more

/-- Model of `new URL(url)` for the simple absolute-URL shape: the
constructor lowercases the scheme and the hostname and keeps the path,
query and fragment verbatim; `pathname` defaults to `"/"`. -/
def parseURL (url : String) : Option URLParts :=
  match splitScheme url.data with
  | none => none
  | some (schemeChars, rest) =>
    if schemeChars.isEmpty ∨ rest.isEmpty then none
    else
      let (hostChars, afterHost) :=
        splitAtFirst (fun c => c = '/' ∨ c = '?' ∨ c = '#') rest
      if hostChars.isEmpty then none
      else
        let (pathChars, afterPath) :=
          splitAtFirst (fun c => c = '?' ∨ c = '#') afterHost
        let (queryChars, hashChars) := splitAtFirst (fun c => c = '#') afterPath
        some
          { protocol := toLowerStr (String.mk schemeChars) ++ ":"
            hostname := toLowerStr (String.mk hostChars)
            pathname := if pathChars.isEmpty then "/" else String.mk pathChars
            searchParams := parseQuery queryChars
            hash := String.mk hashChars }

/-- The tracking query parameters removed by `normalizeUrl`. -/
def trackingParams : List String :=
  ["utm_source", "utm_medium", "utm_campaign", "utm_term", "utm_content",
   "fbclid", "gclid", "ref"]

/-- Serialization of `urlObj.search`: empty when no parameter is left,
otherwise `?`-prefixed `&`-separated `key=value` pairs. -/
def serializeQuery (params : List (String × String)) : String :=
  match params with
  | [] => ""
  | _ =>
    "?" ++ joinSep "&" (params.map (fun kv => kv.1 ++ "=" ++ kv.2))

/-- Source `normalizeUrl(url)`: lowercase the hostname, strip a leading `www.`,
delete the tracking query parameters, strip a single trailing slash from a
non-root pathname, and rebuild
`protocol + "//" + hostname + pathname + search + hash`; on an unparsable
URL fall back to `url.toLowerCase().trim()`. -/
def normalizeUrl (url : String) : String :=
  match parseURL url with
  | none => strTrim (toLowerStr url)
  | some u =>
    let hostname := toLowerStr u.hostname
    let hostname :=
      if strStartsWith hostname "www." then strDrop hostname 4 else hostname
    let params :=
      u.searchParams.filter (fun kv => ¬ trackingParams.contains kv.1)
    let pathname :=
      if strEndsWith u.pathname "/" ∧ u.pathname.length > 1 then
        strDropRight u.pathname 1
      else u.pathname
    u.protocol ++ "//" ++ hostname ++ pathname ++ serializeQuery params ++ u.hash

/-! ## Tag creation (`ensureTags`, lib/bookmark-utils.ts) -/

/-- A row of the `tags` table. -/
structure TagRow where
  id : String
  userId : String
  name : String
deriving DecidableEq, Repr

/-- The loop body of `ensureTags`: for each normalized name, reuse the
first existing tag of the user with that lowercased name, otherwise insert
a new row drawing its id from the supply of fresh ids. -/
def ensureTagsLoop (userId : String) :
    List TagRow → List String → List String → List TagRow × List String
  | tags, [], _ => (tags, [])
  | tags, tagName :: rest, fresh =>
    match tags.find?
        (fun t => t.userId == userId && toLowerStr t.name == tagName) with
    | some existing =>
      let (tags1, ids) := ensureTagsLoop userId tags rest fresh
      (tags1, existing.id :: ids)
    | none =>
      let newId := fresh.headD ""
      let tags0 := tags ++ [⟨newId, userId, tagName⟩]
      let (tags1, ids) := ensureTagsLoop userId tags0 rest (fresh.drop 1)
      (tags1, newId :: ids)

/-- Source `ensureTags(db, userId, tagNames)`: trim and lowercase the names, drop
empties, then create-or-reuse a tag per name, returning the updated table
and the tag ids in order. -/
def ensureTags (tags : List TagRow) (userId : String) (tagNames : List String)
    (fresh : List String) : List TagRow × List String :=
  let normalizedNames :=
    (tagNames.map (fun n => toLowerStr (strTrim n))).filter
      (fun n => n.length > 0)
  ensureTagsLoop userId tags normalizedNames fresh

/-! ## Bookmark creation (`POST /api/bookmarks`, app/api/bookmarks/route.ts) -/

/-- A row of the `bookmarks` table, restricted to the columns the creation
route reads or writes. -/
structure BookmarkRow where
  id : String
  userId : String
  url : String
  normalizedUrl : String
  description : Option String
  status : String
deriving DecidableEq, Repr

/-- The persistence store visible to the creation route. -/
structure Store where
  users : List String
  bookmarks : List BookmarkRow
  tags : List TagRow
  bookmarkTags : List BookmarkTagRow
deriving DecidableEq, Repr

/-- The HTTP outcome of the creation route. -/
inductive PostOutcome where
  | duplicate (existing : BookmarkRow)
  | created (bookmark : BookmarkRow) (processedOk : Bool)
deriving DecidableEq, Repr

/-- What a creation request left behind: the response, the resulting
store, and how many times the processing pipeline was invoked. -/
structure PostResult where
  outcome : PostOutcome
  store : Store
  pipelineRuns : Nat
deriving DecidableEq, Repr

/-- The `POST /api/bookmarks` handler after authentication and request
validation.  `process` is the `processBookmark` collaborator
(store, bookmarkId, userId ↦ updated store and success flag); `freshId`
and `freshTagIds` supply the generated row ids.  Steps, in source order:
upsert the user row (`onConflictDoNothing`), normalize the URL, reject
with a 409 when a bookmark of this owner already has that normalized URL,
otherwise insert the bookmark with status `pending`, attach any
user-provided tags via `ensureTags` and `updateBookmarkTags`, and invoke
the pipeline once. -/
def postBookmark (process : Store → String → String → Store × Bool)
    (store : Store) (userId url : String) (description : Option String)
    (reqTags : List String) (freshId : String) (freshTagIds : List String) :
    PostResult :=
  let users1 :=
    if store.users.contains userId then store.users else store.users ++ [userId]
  let store1 := { store with users := users1 }
  let normalized := normalizeUrl url
  match store1.bookmarks.find?
      (fun b => b.userId == userId && b.normalizedUrl == normalized) with
  | some existing => ⟨.duplicate existing, store1, 0⟩
  | none =>
    let newBookmark : BookmarkRow :=
      ⟨freshId, userId, url, normalized, description, "pending"⟩
    let store2 := { store1 with bookmarks := store1.bookmarks ++ [newBookmark] }
    let store3 :=
      if reqTags.isEmpty then store2
      else
        let (tags1, tagIds) := ensureTags store2.tags userId reqTags freshTagIds
        { store2 with
          tags := tags1
          bookmarkTags := updateBookmarkTags store2.bookmarkTags freshId tagIds }
    let (store4, processedOk) := process store3 freshId userId
    ⟨.created newBookmark processedOk, store4, 1⟩

/-! ## Readable-content extraction (`extractReadableContent`,
lib/content-extractor.ts) -/

/-- Result of `new Readability(document).parse()` when an article was
identified. -/
structure ArticleData where
  title : Option String
  content : Option String
deriving DecidableEq, Repr

/-- The queries `extractReadableContent` runs against the parsed DOM:
`document.title`, the two description `<meta>` tags, the favicon link, the
`og:type` meta tag, and the Readability result (`none` when the algorithm
could not identify an article). -/
structure ParsedDoc where
  title : String
  metaNameDescription : Option String
  ogDescription : Option String
  faviconHref : Option String
  ogType : Option String
  article : Option ArticleData
deriving DecidableEq, Repr

/-- The record `extractReadableContent` returns (`ExtractedContent`). -/
structure ExtractedContent where
  title : Option String
  metaDescription : Option String
  textContent : Option String
  faviconUrl : Option String
  sourceType : String
deriving DecidableEq, Repr

/-- JavaScript truthiness of a nullable string: `null`, `undefined` and
`""` are falsy. -/
def jsTruthy : Option String → Bool
  | some v => v ≠ ""
  | none => false

/-- Source `metaDescription = metaName?.content || ogDescription?.content || null`. -/
def metaDescriptionOf (doc : ParsedDoc) : Option String :=
  if jsTruthy doc.metaNameDescription then doc.metaNameDescription
  else if jsTruthy doc.ogDescription then doc.ogDescription
  else none

/-- Model of `new URL(href, base).href`: an absolute `href` is kept, a
root-relative one is joined to the origin of `base`, anything else is
joined at the end of `base`. -/
def resolveURL (href base : String) : String :=
  if strContains href "://" then href
  else if strStartsWith href "/" then
    match parseURL base with
    | some u => u.protocol ++ "//" ++ u.hostname ++ href
    | none => href
  else base ++ "/" ++ href

/-- Source `if (faviconLink?.href) faviconUrl = new URL(faviconLink.href, url).href`. -/
def faviconOf (doc : ParsedDoc) (url : String) : Option String :=
  if jsTruthy doc.faviconHref then
    some (resolveURL (doc.faviconHref.getD "") url)
  else none

/-- The known-host fallback of the source-type detection. -/
def hostSourceType (url : String) : String :=
  if strContains url "youtube.com" || strContains url "youtu.be" then "video"
  else if strContains url "twitter.com" || strContains url "x.com" then "tweet"
  else "article"

/-- Detected `sourceType`: the `og:type` meta content when truthy, else the
known-host heuristics, else `"article"`. -/
def sourceTypeOf (doc : ParsedDoc) (url : String) : String :=
  if jsTruthy doc.ogType then (doc.ogType).getD "" else hostSourceType url

/-- Characters of an HTML fragment outside of tags: a model of
`parseHTML(html).document.body.textContent`. -/
def stripTagsAux : List Char → Bool → List Char
  | [], _ => []
  | c :: rest, insideTag =>
    if insideTag then stripTagsAux rest (c ≠ '>')
    else if c = '<' then stripTagsAux rest true
    else c :: stripTagsAux rest false

/-- Plain text of the article content subtree
(`contentDoc.body.textContent || ""`). -/
def textFromHtml (html : String) : String :=
  String.mk (stripTagsAux html.data false)

/-- Source `extractReadableContent(html, url)` after the DOM parse succeeded:
compute metadata, favicon and source type, then run Readability; when no
article was identified return the degraded record with
`textContent = null`, otherwise convert the article content to trimmed
plain text and prefer the article title. -/
def extractFromDoc (doc : ParsedDoc) (url : String) : ExtractedContent :=
  let metaDescription := metaDescriptionOf doc
  let faviconUrl := faviconOf doc url
  let sourceType := sourceTypeOf doc url
  match doc.article with
  | none =>
    { title := if doc.title = "" then none else some doc.title
      metaDescription := metaDescription
      textContent := none
      faviconUrl := faviconUrl
      sourceType := sourceType }
  | some article =>
    let textContent := textFromHtml (article.content.getD "")
    { title :=
        if jsTruthy article.title then article.title
        else if doc.title = "" then none
        else some doc.title
      metaDescription := metaDescription
      textContent := some (strTrim textContent)
      faviconUrl := faviconUrl
      sourceType := sourceType }

/-! # Theorems -/

/-! ## Properties of `jsSetDedup` -/

theorem jsSetDedup_foldl_mem (l : List String) :
    ∀ (acc : List String) (x : String),
      x ∈ l.foldl (fun acc x => if x ∈ acc then acc else acc ++ [x]) acc ↔
        (x ∈ acc ∨ x ∈ l) := by
  induction l with
  | nil => simp
  | cons y ys ih =>
    intro acc x
    simp only [List.foldl_cons]
    by_cases hy : y ∈ acc
    · rw [if_pos hy, ih]
      constructor
      · rintro (h | h)
        · exact Or.inl h
        · exact Or.inr (List.mem_cons_of_mem _ h)
      · rintro (h | h)
        · exact Or.inl h
        · rcases List.mem_cons.mp h with rfl | h
          · exact Or.inl hy
          · exact Or.inr h
    · rw [if_neg hy, ih]
      simp only [List.mem_append, List.mem_singleton, List.mem_cons]
      tauto

theorem jsSetDedup_foldl_nodup (l : List String) :
    ∀ acc : List String, acc.Nodup →
      (l.foldl (fun acc x => if x ∈ acc then acc else acc ++ [x]) acc).Nodup := by
  induction l with
  | nil => intro acc h; simpa using h
  | cons y ys ih =>
    intro acc h
    simp only [List.foldl_cons]
    by_cases hy : y ∈ acc
    · rw [if_pos hy]; exact ih acc h
    · rw [if_neg hy]
      refine ih _ ?_
      simp [List.nodup_append, h, hy]

theorem jsSetDedup_mem (l : List String) (x : String) :
    x ∈ jsSetDedup l ↔ x ∈ l := by
  unfold jsSetDedup
  rw [jsSetDedup_foldl_mem]
  simp

theorem jsSetDedup_nodup (l : List String) : (jsSetDedup l).Nodup :=
  jsSetDedup_foldl_nodup l [] (by simp)

theorem tagsOf_updateBookmarkTags (table : List BookmarkTagRow) (bid : String)
    (tagIds : List String) :
    tagsOf (updateBookmarkTags table bid tagIds) bid =
      jsSetDedup (tagsOf table bid ++ tagIds) := by
  have h1 : ∀ t : List BookmarkTagRow,
      List.filter (fun r => decide (r.bookmarkId = bid))
        (List.filter (fun r => decide (¬ r.bookmarkId = bid)) t) = [] := by
    intro t
    induction t with
    | nil => rfl
    | cons r rest ih =>
      by_cases h : r.bookmarkId = bid
      · simp [List.filter_cons, h, ih]
      · simp [List.filter_cons, h, ih]
  have h2 : ∀ ids : List String,
      List.filter (fun r => decide (r.bookmarkId = bid))
        (ids.map (fun t => (⟨bid, t⟩ : BookmarkTagRow))) =
        ids.map (fun t => (⟨bid, t⟩ : BookmarkTagRow)) := by
    intro ids
    induction ids with
    | nil => rfl
    | cons x xs ih => simp [List.filter_cons, ih]
  have h3 : ∀ ids : List String,
      (ids.map (fun t => (⟨bid, t⟩ : BookmarkTagRow))).map
          (fun r => r.tagId) = ids := by
    intro ids
    have hcomp : ((fun r : BookmarkTagRow => r.tagId) ∘
        fun t => (⟨bid, t⟩ : BookmarkTagRow)) = id := by
      funext t
      rfl
    rw [List.map_map, hcomp, List.map_id]
  simp only [tagsOf, updateBookmarkTags]
  rw [List.filter_append, h1, List.nil_append, h2, h3]

/-- C1: `updateBookmarkTags` leaves the bookmark's persisted tag-edge set
exactly equal to the union of the existing tag-id set and the incoming
tag-id set, with no duplicates; in particular no existing tag edge is ever
absent afterwards — the merge is monotone and never narrows the set. -/
theorem updateBookmarkTags_merges_union (table : List BookmarkTagRow)
    (bid : String) (tagIds : List String) :
    (tagsOf (updateBookmarkTags table bid tagIds) bid).Nodup ∧
      ∀ t, t ∈ tagsOf (updateBookmarkTags table bid tagIds) bid ↔
        (t ∈ tagsOf table bid ∨ t ∈ tagIds) := by
  rw [tagsOf_updateBookmarkTags]
  exact ⟨jsSetDedup_nodup _, fun t => by rw [jsSetDedup_mem]; simp⟩

/-! ## URL normalization examples -/

/-- C8: normalizing `"https://WWW.Example.com/Path/"` and
`"https://example.com/Path"` yields the same key, and normalizing
`"https://example.com/path?utm_source=x"` yields
`"https://example.com/path"`. -/
theorem normalizeUrl_examples :
    normalizeUrl "https://WWW.Example.com/Path/" =
        normalizeUrl "https://example.com/Path" ∧
      normalizeUrl "https://example.com/Path" = "https://example.com/Path" ∧
      normalizeUrl "https://example.com/path?utm_source=x" =
        "https://example.com/path" := by
  decide

/-! ## Truncation -/

/-- C10: `truncateContent` is the identity on content that fits within the
budget — no ellipsis is appended and no characters are removed. -/
theorem truncateContent_identity_below_budget (content : List Char)
    (maxChars : Nat) (h : content.length ≤ maxChars) :
    truncateContent content maxChars = content := by
  simp [truncateContent, h]

theorem truncateContent_identity_below_budget_witness :
    "short".data.length ≤ 10 ∧ truncateContent "short".data 10 = "short".data :=
  ⟨by decide, truncateContent_identity_below_budget "short".data 10 (by decide)⟩

/-- The truncation result ends at a word boundary of the original content:
it is some prefix of the content followed by the ellipsis, and the first
character of the content dropped at the cut is a space. -/
def endsAtWordBoundary (content r : List Char) : Prop :=
  3 ≤ r.length ∧ r.drop (r.length - 3) = "...".data ∧
    content.get? (r.length - 3) = some ' '

instance (content r : List Char) : Decidable (endsAtWordBoundary content r) := by
  unfold endsAtWordBoundary
  infer_instance

theorem lastIndexOfSpace_spec (l : List Char) (h : lastIndexOfSpace l ≥ 0) :
    (lastIndexOfSpace l).toNat < l.length ∧
      l.get? (lastIndexOfSpace l).toNat = some ' ' := by
  induction l with
  | nil => simp [lastIndexOfSpace] at h
  | cons c rest ih =>
    simp only [lastIndexOfSpace] at h ⊢
    by_cases hr : lastIndexOfSpace rest ≥ 0
    · rw [if_pos hr] at h ⊢
      obtain ⟨hlt, hget⟩ := ih hr
      have htn : (lastIndexOfSpace rest + 1).toNat =
          (lastIndexOfSpace rest).toNat + 1 := by omega
      rw [htn]
      refine ⟨by simpa using hlt, ?_⟩
      simpa using hget
    · rw [if_neg hr] at h ⊢
      by_cases hc : c = ' '
      · rw [if_pos hc] at h ⊢
        subst hc
        simp
      · rw [if_neg hc] at h
        omega

theorem lastIndexOfSpace_ge (l : List Char) :
    ∀ i : Nat, l.get? i = some ' ' → (i : Int) ≤ lastIndexOfSpace l := by
  induction l with
  | nil => intro i h; simp at h
  | cons c rest ih =>
    intro i h
    match i with
    | 0 =>
      have hc : c = ' ' := by simpa using h
      simp only [lastIndexOfSpace]
      by_cases hr : lastIndexOfSpace rest ≥ 0
      · rw [if_pos hr]
        omega
      · rw [if_neg hr, if_pos hc]
        simp
    | i + 1 =>
      have hrec := ih i (by simpa using h)
      simp only [lastIndexOfSpace]
      by_cases hr : lastIndexOfSpace rest ≥ 0
      · rw [if_pos hr]
        push_cast
        omega
      · exfalso
        omega

/-- C7 as stated is false on the code: with budget `B = 10` and content
`"abcdefgh ixyzzz"`, the space at index 8 lies within the last 20 % of the
first 10 characters (`5 * 8 ≥ 4 * 10`), yet the code requires the last
space to lie strictly past 80 % (`lastSpace > maxChars * 0.8`), keeps the
full 10-character cut and returns `"abcdefgh i..."`, which cuts the word
`"ixyzzz"` mid-word rather than ending at a word boundary. -/
theorem truncateContent_boundary_cex :
    "abcdefgh ixyzzz".data.length > 10 ∧
      (∃ i, i < 10 ∧ 4 * 10 ≤ 5 * i ∧
        "abcdefgh ixyzzz".data.get? i = some ' ') ∧
      truncateContent "abcdefgh ixyzzz".data 10 = "abcdefgh i...".data ∧
      ¬ endsAtWordBoundary "abcdefgh ixyzzz".data
          (truncateContent "abcdefgh ixyzzz".data 10) := by
  refine ⟨by decide, ⟨8, by decide, by decide, by decide⟩, by decide, by decide⟩

/-- C7 amended: for content longer than the budget `B`, `truncateContent`
returns at most `B` characters plus the three-character ellipsis; it ends
at a word boundary whenever a space occurs *strictly past* 80 % of the
first `B` characters (0-based index `i` with `5 * i > 4 * B`); when no
such space exists it returns the first `B` characters verbatim with the
ellipsis appended, possibly cutting a word. -/
theorem truncateContent_amended (content : List Char) (B : Nat)
    (hB : B < content.length) :
    (truncateContent content B).length ≤ B + 3 ∧
      ((∃ i, i < B ∧ 4 * B < 5 * i ∧ content.get? i = some ' ') →
        endsAtWordBoundary content (truncateContent content B)) ∧
      ((¬ ∃ i, i < B ∧ 4 * B < 5 * i ∧ content.get? i = some ' ') →
        truncateContent content B = content.take B ++ "...".data) := by
  have hnle : ¬ content.length ≤ B := by omega
  have htakeLen : (content.take B).length = B := by
    simp [List.length_take]
    omega
  have hlen3 : ("...".data).length = 3 := rfl
  by_cases hcond : 5 * lastIndexOfSpace (content.take B) > 4 * (B : Int)
  · have hge : lastIndexOfSpace (content.take B) ≥ 0 := by omega
    obtain ⟨hlt, hget⟩ := lastIndexOfSpace_spec (content.take B) hge
    set k := (lastIndexOfSpace (content.take B)).toNat with hk
    have hltB : k < B := by omega
    have hres : truncateContent content B =
        (content.take B).take k ++ "...".data := by
      unfold truncateContent
      rw [if_neg hnle, if_pos hcond]
    have hwlen : ((content.take B).take k).length = k := by
      rw [List.length_take]
      omega
    have hgetc : content.get? k = some ' ' := by
      rw [← List.get?_take hltB]
      exact hget
    have hrlen : (truncateContent content B).length = k + 3 := by
      rw [hres, List.length_append, hwlen, hlen3]
    refine ⟨?_, fun _ => ?_, fun hno => ?_⟩
    · omega
    · unfold endsAtWordBoundary
      have hsub : (truncateContent content B).length - 3 = k := by omega
      refine ⟨by omega, ?_, ?_⟩
      · rw [hsub, hres]
        have hdrop := List.drop_left ((content.take B).take k) ("...".data)
        rw [hwlen] at hdrop
        exact hdrop
      · rw [hsub]
        exact hgetc
    · exact absurd ⟨k, hltB, by omega, hgetc⟩ hno
  · have hres : truncateContent content B = content.take B ++ "...".data := by
      unfold truncateContent
      rw [if_neg hnle, if_neg hcond]
    refine ⟨?_, fun hex => ?_, fun _ => hres⟩
    · rw [hres, List.length_append, htakeLen, hlen3]
    · exfalso
      obtain ⟨i, hiB, hfrac, hsp⟩ := hex
      have hsp' : (content.take B).get? i = some ' ' := by
        rw [List.get?_take hiB]
        exact hsp
      have := lastIndexOfSpace_ge (content.take B) i hsp'
      omega

theorem truncateContent_amended_witness :
    10 < "abcdefghi jklmno".data.length ∧
      endsAtWordBoundary "abcdefghi jklmno".data
        (truncateContent "abcdefghi jklmno".data 10) := by
  have h := truncateContent_amended "abcdefghi jklmno".data 10 (by decide)
  exact ⟨by decide, h.2.1 ⟨9, by decide, by decide, by decide⟩⟩

/-! ## Hand-edits and the search vector -/

/-- C2 as stated is false on the code: the PATCH handler persists an
edited `summaryShort` but never recomputes `search_vector`, so starting
from a consistent row the persisted vector no longer equals the weighted
document built from the currently displayed content. -/
theorem patch_drifts_searchVector_cex :
    (patchBookmark ⟨some "My Title", some "my note"⟩
        ⟨some "old short", none,
          buildSearchVector (some "My Title") (some "my note")
            (some "old short") none⟩
        ⟨none, some "completely new summary", none⟩).2.summaryShort =
        some "completely new summary" ∧
      (patchBookmark ⟨some "My Title", some "my note"⟩
          ⟨some "old short", none,
            buildSearchVector (some "My Title") (some "my note")
              (some "old short") none⟩
          ⟨none, some "completely new summary", none⟩).2.searchVector ≠
        buildSearchVector (some "My Title") (some "my note")
          (some "completely new summary") none := by
  refine ⟨by decide, by decide⟩

/-- C2 amended: a user hand-edit through the bookmark PATCH operation
persists the edited `description`, `summaryShort` and `summaryLong`
values, but leaves the persisted `search_vector` column exactly as it was:
the handler never recomputes it, so the index can drift from displayed
content until the next processing run. -/
theorem patchBookmark_preserves_searchVector (bm : PatchBookmarkRow)
    (ct : ContentRow) (body : PatchBody) :
    (patchBookmark bm ct body).2.searchVector = ct.searchVector ∧
      (∀ s, body.summaryShort = some s →
        (patchBookmark bm ct body).2.summaryShort = some s) ∧
      (∀ s, body.summaryLong = some s →
        (patchBookmark bm ct body).2.summaryLong = some s) ∧
      (∀ d, body.description = some d →
        (patchBookmark bm ct body).1.description = d) := by
  obtain ⟨bd, bs, bl⟩ := body
  cases bd <;> cases bs <;> cases bl <;>
    simp [patchBookmark]

theorem patchBookmark_preserves_searchVector_witness :
    (patchBookmark ⟨some "T", some "note"⟩ ⟨some "a", none, []⟩
        ⟨none, some "b", none⟩).2.searchVector = [] ∧
      (patchBookmark ⟨some "T", some "note"⟩ ⟨some "a", none, []⟩
          ⟨none, some "b", none⟩).2.summaryShort = some "b" := by
  have h := patchBookmark_preserves_searchVector ⟨some "T", some "note"⟩
    ⟨some "a", none, []⟩ ⟨none, some "b", none⟩
  exact ⟨h.1, h.2.1 "b" rfl⟩

/-! ## Fetch size ceiling -/

/-- C3 as stated is false on the code: a response whose *advertised*
`Content-Length` exceeds the 2 MiB ceiling is rejected with a
`Content too large` error, not truncated — only the actual downloaded
body is truncated. -/
theorem fetchPageHtml_rejects_advertised_oversize_cex :
    fetchPageHtml
        ⟨true, 200, "OK", some "text/html", some 2097153, "<html></html>".data⟩
        2097152 =
      .failure "Content too large: 2097153 bytes" := by
  decide

/-- C3 amended: when the advertised `Content-Length` exceeds the byte
ceiling `fetchPageHtml` rejects the response with a `Content too large`
error; only when the headers pass and the actual downloaded body exceeds
the ceiling is the body truncated to exactly the ceiling and returned
successfully. -/
theorem fetchPageHtml_size_ceiling (resp : HttpResponse) (maxSizeBytes : Nat)
    (hok : resp.ok = true)
    (hct : ∃ ct, resp.contentType = some ct ∧ strContains ct "text/html" = true) :
    (∀ n, resp.contentLength = some n → maxSizeBytes < n →
      fetchPageHtml resp maxSizeBytes =
        .failure ("Content too large: " ++ toString n ++ " bytes")) ∧
      ((∀ n, resp.contentLength = some n → n ≤ maxSizeBytes) →
        maxSizeBytes < resp.body.length →
        fetchPageHtml resp maxSizeBytes = .success (resp.body.take maxSizeBytes) ∧
          (resp.body.take maxSizeBytes).length = maxSizeBytes) := by
  obtain ⟨ct, hcteq, hctml⟩ := hct
  constructor
  · intro n hn hlt
    unfold fetchPageHtml
    rw [hok, hcteq, hn]
    simp [hctml, hlt, Nat.lt_irrefl]
  · intro hsmall hbig
    unfold fetchPageHtml
    rw [hok, hcteq]
    have hhdr : (match resp.contentLength with
        | some n => decide (maxSizeBytes < n)
        | none => false) = false := by
      cases hcl : resp.contentLength with
      | none => rfl
      | some n =>
        have := hsmall n hcl
        simp
        omega
    simp only [hctml]
    rw [hhdr]
    simp [hbig]
    omega

theorem fetchPageHtml_size_ceiling_witness :
    fetchPageHtml ⟨true, 200, "OK", some "text/html", some 9, "x".data⟩ 5 =
        .failure "Content too large: 9 bytes" ∧
      fetchPageHtml ⟨true, 200, "OK", some "text/html", none,
          "0123456789abc".data⟩ 5 =
        .success "01234".data := by
  have h1 := fetchPageHtml_size_ceiling
    ⟨true, 200, "OK", some "text/html", some 9, "x".data⟩ 5 rfl
    ⟨"text/html", rfl, by decide⟩
  have h2 := fetchPageHtml_size_ceiling
    ⟨true, 200, "OK", some "text/html", none, "0123456789abc".data⟩ 5 rfl
    ⟨"text/html", rfl, by decide⟩
  refine ⟨h1.1 9 rfl (by decide), ?_⟩
  have := (h2.2 (fun n hn => by simp at hn) (by decide)).1
  rw [this]
  rfl

/-! ## LLM response validation -/

theorem allStrings_map_str (ts : List String) :
    allStrings (ts.map Json.str) = some ts := by
  induction ts with
  | nil => rfl
  | cons t rest ih => simp [allStrings, ih, asString]

/-- C4 as stated is false on the code: `LLMResultSchema` puts no bound on
the number of tags (`z.array(z.string())`, the 3–5 range appears only in
the prompt text), so a response with a two-entry tags array — fewer than 3
— validates successfully instead of being routed to the retry path. -/
theorem llmSchema_accepts_two_tags_cex :
    LLMResultSchemaParse
        (.obj [("title", .str "T"), ("language", .str "en"),
          ("tags", .arr [.str "a", .str "b"])]) =
      some ⟨"T", none, none, "en", ["a", "b"], none⟩ := by
  decide

/-- C4 amended: validation accepts a model response exactly when `title`
and `language` are strings and `tags` is an array of strings of *any*
length (including fewer than 3 or more than 5 entries), with
`summary_short`, `summary_long` and `category` optional; tag cardinality
never causes a validation failure. -/
theorem llmSchema_tags_any_length (t lang : String) (ts : List String) :
    LLMResultSchemaParse
        (.obj [("title", .str t), ("language", .str lang),
          ("tags", .arr (ts.map .str))]) =
      some ⟨t, none, none, lang, ts, none⟩ := by
  simp [LLMResultSchemaParse, jsonLookup, jsonLookup.lookupField,
    optionalStringField, asString, asStringArray, allStrings_map_str]

/-! ## Retry discipline of `summarizeAndTag` -/

theorem summarizeFrom_all_fail (attempts : Nat → Except String LLMResult)
    (errs : Nat → String) (hfail : ∀ i, attempts i = .error (errs i)) :
    ∀ remaining attempt waits,
      summarizeFrom attempts attempt remaining waits =
        ⟨.error (llmFailureMessage (attempt + remaining + 1)
            (errs (attempt + remaining))),
          attempt + remaining + 1,
          waits ++ (List.range remaining).map
            (fun j => 2 ^ (attempt + j) * 1000)⟩ := by
  intro remaining
  induction remaining with
  | zero =>
    intro attempt waits
    unfold summarizeFrom
    rw [hfail attempt]
    simp
  | succ rem ih =>
    intro attempt waits
    unfold summarizeFrom
    rw [hfail attempt]
    show summarizeFrom attempts (attempt + 1) rem (waits ++ [2 ^ attempt * 1000]) = _
    rw [ih (attempt + 1) (waits ++ [2 ^ attempt * 1000])]
    have harith : attempt + 1 + rem = attempt + (rem + 1) := by omega
    have hmap : (List.range rem).map
        ((fun j => 2 ^ (attempt + j) * 1000) ∘ Nat.succ) =
        (List.range rem).map (fun j => 2 ^ (attempt + 1 + j) * 1000) := by
      apply List.map_congr_left
      intro j _
      simp only [Function.comp_apply, Nat.succ_eq_add_one]
      have hexp : attempt + (j + 1) = attempt + 1 + j := by omega
      rw [hexp]
    have hlist : waits ++ [2 ^ attempt * 1000] ++
        (List.range rem).map (fun j => 2 ^ (attempt + 1 + j) * 1000) =
        waits ++ (List.range (rem + 1)).map
          (fun j => 2 ^ (attempt + j) * 1000) := by
      rw [List.range_succ_eq_map, List.append_assoc, List.map_cons,
        List.map_map, hmap]
      simp
    rw [harith, hlist]

/-- C6: with `maxRetries = N` and every underlying model call failing,
`summarizeAndTag` performs exactly `N + 1` attempts, sleeps
`2 ^ attempt * 1000` milliseconds (i.e. `2 ^ attempt` seconds) before each
retry, and finally throws the summarization error carrying the message of
the last underlying failure; no partial result is returned. -/
theorem summarizeAndTag_exhausts_retries
    (attempts : Nat → Except String LLMResult) (maxRetries : Nat)
    (errs : Nat → String) (hfail : ∀ i, attempts i = .error (errs i)) :
    (summarizeAndTag attempts maxRetries).attemptsMade = maxRetries + 1 ∧
      (summarizeAndTag attempts maxRetries).waitsMs =
        (List.range maxRetries).map (fun attempt => 2 ^ attempt * 1000) ∧
      (summarizeAndTag attempts maxRetries).result =
        .error (llmFailureMessage (maxRetries + 1) (errs maxRetries)) := by
  unfold summarizeAndTag
  rw [summarizeFrom_all_fail attempts errs hfail maxRetries 0 []]
  refine ⟨by simp, ?_, by simp⟩
  simp

theorem summarizeAndTag_exhausts_retries_witness :
    (summarizeAndTag (fun _ => .error "boom") 2).attemptsMade = 3 ∧
      (summarizeAndTag (fun _ => .error "boom") 2).waitsMs = [1000, 2000] ∧
      (summarizeAndTag (fun _ => .error "boom") 2).result =
        .error "Failed to get LLM response after 3 attempts: boom" := by
  have h := summarizeAndTag_exhausts_retries (fun _ => .error "boom") 2
    (fun _ => "boom") (fun _ => rfl)
  refine ⟨h.1, ?_, ?_⟩
  · rw [h.2.1]
    rfl
  · rw [h.2.2]
    rfl

/-! ## Duplicate rejection on creation -/

/-- C5: when the owner already has a bookmark with the same normalized
URL, the creation route answers with the duplicate error, leaves the store
completely unchanged (given the foreign-key invariant that every
bookmark's owner exists in `users`), and never invokes the processing
pipeline. -/
theorem postBookmark_duplicate_rejected
    (process : Store → String → String → Store × Bool) (store : Store)
    (userId url : String) (description : Option String)
    (reqTags : List String) (freshId : String) (freshTagIds : List String)
    (hfk : ∀ b ∈ store.bookmarks, b.userId ∈ store.users)
    (hdup : ∃ b ∈ store.bookmarks,
      b.userId = userId ∧ b.normalizedUrl = normalizeUrl url) :
    (∃ ex, (postBookmark process store userId url description reqTags
        freshId freshTagIds).outcome = .duplicate ex) ∧
      (postBookmark process store userId url description reqTags freshId
        freshTagIds).store = store ∧
      (postBookmark process store userId url description reqTags freshId
        freshTagIds).pipelineRuns = 0 := by
  obtain ⟨b, hb, hbu, hbn⟩ := hdup
  have huser : userId ∈ store.users := by
    have hm := hfk b hb
    rwa [hbu] at hm
  have hcontains : store.users.contains userId = true :=
    List.elem_eq_true_of_mem huser
  have hsome : (store.bookmarks.find?
      (fun r => r.userId == userId &&
        r.normalizedUrl == normalizeUrl url)).isSome := by
    rw [List.find?_isSome]
    exact ⟨b, hb, by simp [hbu, hbn]⟩
  obtain ⟨ex, hex⟩ := Option.isSome_iff_exists.mp hsome
  refine ⟨⟨ex, ?_⟩, ?_, ?_⟩ <;>
    simp [postBookmark, hcontains, huser, hex]

theorem postBookmark_duplicate_rejected_witness :
    (postBookmark (fun s _ _ => (s, true))
        ⟨["u1"], [⟨"b1", "u1", "", "", none, "pending"⟩], [], []⟩
        "u1" "" none [] "new-id" []).pipelineRuns = 0 ∧
      (postBookmark (fun s _ _ => (s, true))
          ⟨["u1"], [⟨"b1", "u1", "", "", none, "pending"⟩], [], []⟩
          "u1" "" none [] "new-id" []).store =
        ⟨["u1"], [⟨"b1", "u1", "", "", none, "pending"⟩], [], []⟩ := by
  have h := postBookmark_duplicate_rejected (fun s _ _ => (s, true))
    ⟨["u1"], [⟨"b1", "u1", "", "", none, "pending"⟩], [], []⟩
    "u1" "" none [] "new-id" []
    (by decide)
    ⟨⟨"b1", "u1", "", "", none, "pending"⟩, by decide, rfl, by decide⟩
  exact ⟨h.2.2, h.2.1⟩

/-! ## Degraded extraction -/

/-- C9: when Readability cannot identify an article,
`extractReadableContent` still returns a total result — the page title (or
`null` when empty), the extracted meta description, `textContent = null`,
and the favicon and source type computed before the branch; degraded
extraction is not a fatal condition. -/
theorem extract_degraded_not_fatal (doc : ParsedDoc) (url : String)
    (h : doc.article = none) :
    (extractFromDoc doc url).textContent = none ∧
      (extractFromDoc doc url).title =
        (if doc.title = "" then none else some doc.title) ∧
      (extractFromDoc doc url).metaDescription = metaDescriptionOf doc ∧
      (extractFromDoc doc url).faviconUrl = faviconOf doc url ∧
      (extractFromDoc doc url).sourceType = sourceTypeOf doc url := by
  simp [extractFromDoc, h]

theorem extract_degraded_not_fatal_witness :
    (extractFromDoc
        ⟨"Page Title", some "A description.", none, some "/icon.png", none,
          none⟩
        "https://example.com/a").textContent = none ∧
      (extractFromDoc
          ⟨"Page Title", some "A description.", none, some "/icon.png", none,
            none⟩
          "https://example.com/a").title = some "Page Title" := by
  have h := extract_degraded_not_fatal
    ⟨"Page Title", some "A description.", none, some "/icon.png", none, none⟩
    "https://example.com/a" rfl
  exact ⟨h.1, h.2.1.trans (by decide)⟩

end Bookmarks
